import Mathlib

/-!
Verification of the offer-normalization and best-deal ranking engine of the
quotation-comparison service.

The Python source is shallowly embedded as follows:

* Python floats are modelled as exact rationals (ℚ); `float("inf")` values are
  modelled with `WithTop ℚ` where `⊤` stands for `+infinity`.  Python's
  `round(x, 2)` is modelled as rounding `x * 100` to the nearest integer.
  (Python uses binary floats with round-half-to-even; none of the values
  appearing in the verified properties sits on a half-way point, so the
  difference is immaterial here.)
* Python `None`, strings, ints and floats flowing through the untyped raw
  records are modelled by the inductive `PyVal`; a raw record is a dictionary
  with optional fields, modelled as a structure of `Option PyVal` fields
  (`none` = key absent, `some .pynone` = key present with value `None`).
* A Python function that can raise an uncaught exception is modelled in
  `Except PyErr`; conversions whose `ValueError`/`TypeError` is caught by the
  source are modelled with `Option`.
* `list.sort(key=...)` is a stable sort by a total preorder; the result of any
  stable sort is unique, so it is modelled by insertion sort (`sortLe`).
-/

namespace QuotationComparison

attribute [local semireducible] Rat.ofScientific Rat.mul Rat.inv Rat.add Rat.sub

/-- Rounding to two decimal places: model of Python `round(x, 2)` over ℚ. -/
def round2 (x : ℚ) : ℚ := (⌊x * 100 + 1 / 2⌋ : ℚ) / 100

/-- Rounding to two decimals extended to values that may be `+infinity`
(`round(float('inf'), 2)` is `inf` in Python). -/
def round2Inf (x : WithTop ℚ) : WithTop ℚ := WithTop.map round2 x

/-- A dynamically-typed Python value as it appears in a raw offer record. -/
inductive PyVal where
  | pynone : PyVal
  | pystr : String → PyVal
  | pyint : ℤ → PyVal
  | pyfloat : ℚ → PyVal
deriving DecidableEq

/-- The only uncaught exception the embedded normalizer can raise:
`AttributeError` from calling `.strip()` on a non-string value. -/
inductive PyErr where
  | attributeError : PyErr
deriving DecidableEq

/-- Whitespace test used by `str.strip` and the `\s` of the quantity regex. -/
def isWs (c : Char) : Bool := c.isWhitespace

/-- Drop leading whitespace characters. -/
def dropWs : List Char → List Char
  | [] => []
  | c :: cs => if isWs c then dropWs cs else c :: cs

/-- Drop trailing whitespace characters. -/
def stripTail (cs : List Char) : List Char := (dropWs cs.reverse).reverse

/-- Model of Python `str.strip()` on the character list of a string. -/
def stripChars (cs : List Char) : List Char := stripTail (dropWs cs)

/-- Model of Python `str.strip()`. -/
def pyStrip (s : String) : String := String.mk (stripChars s.data)

/-- Maximal leading run of decimal digits, together with the remainder. -/
def takeDigits : List Char → List Char × List Char
  | [] => ([], [])
  | c :: cs =>
    if c.isDigit then
      let p := takeDigits cs
      (c :: p.1, p.2)
    else ([], c :: cs)

/-- Numeric value of a digit character. -/
def digitVal (c : Char) : ℕ := c.toNat - 48

/-- Numeric value of a list of digit characters (most significant first). -/
def natOfDigits (ds : List Char) : ℕ := ds.foldl (fun a c => 10 * a + digitVal c) 0

/-- Unsigned decimal literal accepted by Python `float()`:
digits, optionally followed by a point and further digits (at least one digit
overall).  Exotic accepted forms (exponents, `inf`, `nan`, underscores) are
not modelled; no verified property depends on them. -/
def parseUnsigned (cs : List Char) : Option ℚ :=
  let p := takeDigits cs
  match p.2 with
  | [] => if p.1 = [] then none else some ((natOfDigits p.1 : ℕ) : ℚ)
  | c :: rest =>
    if c = '.' then
      let q := takeDigits rest
      if q.2 = [] then
        if p.1 = [] ∧ q.1 = [] then none
        else some (((natOfDigits p.1 : ℕ) : ℚ) + ((natOfDigits q.1 : ℕ) : ℚ) / ((10 : ℚ) ^ q.1.length))
      else none
    else none

/-- Optional sign in front of a numeric literal. -/
def parseSign (cs : List Char) : Bool × List Char :=
  match cs with
  | [] => (false, [])
  | c :: rest =>
    if c = '-' then (true, rest)
    else if c = '+' then (false, rest)
    else (false, c :: rest)

/-- Model of Python `float(s)` for a string argument: `none` means
`ValueError`. -/
def pyFloatOfString (s : String) : Option ℚ :=
  let t := stripChars s.data
  let sg := parseSign t
  (parseUnsigned sg.2).map (fun q => if sg.1 then -q else q)

/-- Unsigned decimal integer literal accepted by Python `int()`. -/
def parseUnsignedInt (cs : List Char) : Option ℕ :=
  let p := takeDigits cs
  if p.1 = [] then none
  else if p.2 = [] then some (natOfDigits p.1) else none

/-- Model of Python `int(s)` for a string argument: `none` means
`ValueError`. -/
def pyIntOfString (s : String) : Option ℤ :=
  let t := stripChars s.data
  let sg := parseSign t
  (parseUnsignedInt sg.2).map (fun n => if sg.1 then -(n : ℤ) else (n : ℤ))

/-- Truncation toward zero: Python `int()` applied to a float. -/
def truncQ (q : ℚ) : ℤ := if 0 ≤ q then ⌊q⌋ else -⌊-q⌋

/-- Model of Python `float(v)` on a dynamic value (`none` = raises
`ValueError`/`TypeError`, which every call site in the source catches). -/
def pyFloat : PyVal → Option ℚ
  | .pynone => none
  | .pystr s => pyFloatOfString s
  | .pyint n => some ((n : ℤ) : ℚ)
  | .pyfloat q => some q

/-- Model of Python `int(v)` on a dynamic value (`none` = raises
`ValueError`/`TypeError`, which every call site in the source catches). -/
def pyInt : PyVal → Option ℤ
  | .pynone => none
  | .pystr s => pyIntOfString s
  | .pyint n => some n
  | .pyfloat q => some (truncQ q)

/-- Python truthiness of a dynamic value. -/
def pyTruthy : PyVal → Bool
  | .pynone => false
  | .pystr s => decide (s ≠ "")
  | .pyint n => decide (n ≠ 0)
  | .pyfloat q => decide (q ≠ 0)

/-- Model of `v.strip()` on a dynamic value: succeeds only on strings,
anything else raises `AttributeError` (`none`). -/
def pyStripVal : PyVal → Option String
  | .pystr s => some (pyStrip s)
  | _ => none

/-- Model of `dict.get(key, default)`: the structure field is `none` when the
key is absent. -/
def pyGet (v : Option PyVal) (dflt : PyVal) : PyVal := v.getD dflt

/-- Embedding of `parse_quantity_string` (src/app.py, lines 135-146) on the
leading characters of the stripped input.  The source matches the regexes
`(\d+)\s*\+\s*(\d+)` and `(\d+)` anchored at the start; greedy digit matching
never needs backtracking here because `\s*\+` cannot start with a digit, so
taking the maximal digit run is equivalent. -/
def parseQtyChars (cs : List Char) : ℕ × ℕ :=
  let p := takeDigits cs
  if p.1 = [] then (0, 0)
  else
    match dropWs p.2 with
    | [] => (natOfDigits p.1, 0)
    | c :: r2 =>
      if c = '+' then
        let q := takeDigits (dropWs r2)
        if q.1 = [] then (natOfDigits p.1, 0) else (natOfDigits p.1, natOfDigits q.1)
      else (natOfDigits p.1, 0)

/-- Embedding of `parse_quantity_string` (src/app.py, lines 135-146). -/
def parse_quantity_string : Option String → ℕ × ℕ
  | none => (0, 0)
  | some s => if s = "" then (0, 0) else parseQtyChars (stripChars s.data)

/-- Embedding of `calculate_item_metrics` (src/sku_processing.py, lines
12-28).  Arguments that the source checks against `None` are `Option`s; the
returned comparison rate may be `+infinity`, hence `WithTop ℚ`. -/
def calculate_item_metrics (base_rate base_discount_percent : Option ℚ)
    (paid_qty free_qty : Option ℤ) :
    Option ℚ × Option ℚ × Option (WithTop ℚ) :=
  match base_rate, paid_qty, free_qty with
  | some br, some pq, some fq =>
    if br < 0 then (none, none, none)
    else
      let d := base_discount_percent.getD 0
      let eff_rate_display := br * (1 - d / 100)
      let comparison_rate : WithTop ℚ :=
        if pq + fq = 0 then (if 0 < pq then ⊤ else ((0 : ℚ) : WithTop ℚ))
        else ((((pq : ℚ) * eff_rate_display) / ((pq : ℚ) + (fq : ℚ)) : ℚ) : WithTop ℚ)
      (some (round2 eff_rate_display), some (round2 d), some (round2Inf comparison_rate))
  | _, _, _ => (none, none, none)

/-- Test for a negative value behind an `Option`, used by the guard of the
earlier revision of the rate calculator. -/
def isNegOpt : Option ℚ → Bool
  | some v => decide (v < 0)
  | none => false

/-- Embedding of the earlier revision of `calculate_item_metrics`
(src/app.py, lines 148-163), whose guard is written
`if None in [base_rate, paid_qty, free_qty] or base_rate < 0`. -/
def calculate_item_metrics_app (base_rate base_discount_percent : Option ℚ)
    (paid_qty free_qty : Option ℤ) :
    Option ℚ × Option ℚ × Option (WithTop ℚ) :=
  if base_rate.isNone || paid_qty.isNone || free_qty.isNone || isNegOpt base_rate then
    (none, none, none)
  else
    match base_rate, paid_qty, free_qty with
    | some br, some pq, some fq =>
      let d := base_discount_percent.getD 0
      let eff_rate_display := br * (1 - d / 100)
      let comparison_rate : WithTop ℚ :=
        if pq + fq = 0 then (if 0 < pq then ⊤ else ((0 : ℚ) : WithTop ℚ))
        else ((((pq : ℚ) * eff_rate_display) / ((pq : ℚ) + (fq : ℚ)) : ℚ) : WithTop ℚ)
      (some (round2 eff_rate_display), some (round2 d), some (round2Inf comparison_rate))
    | _, _, _ => (none, none, none)

/-- Embedding of the `ProcessedSkuItem` dataclass (src/models.py, lines
19-34). -/
structure ProcessedSkuItem where
  supplier : String
  sku : String
  sku_name : String
  mrp : ℚ
  base_rate : ℚ
  paid_qty : ℤ
  free_qty : ℤ
  qty_display_str : String
  eff_rate_display_column : Option ℚ
  eff_disc_display_column : Option ℚ
  comparison_eff_rate : Option (WithTop ℚ)
  calculated_rate_per_qty : Option ℚ
  batch_number : String
deriving DecidableEq

/-- A raw offer record handed to `preprocess_data`: a dictionary whose keys
may be absent (`none`) or hold any dynamic value. -/
structure RawRecord where
  sku_supplier : Option PyVal
  sku_invoice : Option PyVal
  sku_name : Option PyVal
  mrp : Option PyVal
  base_rate : Option PyVal
  base_discount_percent : Option PyVal
  paid_qty : Option PyVal
  free_qty : Option PyVal
  amount : Option PyVal
  batch_number : Option PyVal
deriving DecidableEq

/-- Embedding of one iteration of the loop of `preprocess_data`
(src/sku_processing.py, lines 39-108): `.ok none` models `continue`
(record skipped), `.ok (some item)` models appending a processed item, and
`.error` models an uncaught `AttributeError` from `.strip()` on a non-string
value (the `except` clauses of the source catch only `ValueError` and
`TypeError`). -/
def processRecord (item : RawRecord) : Except PyErr (Option ProcessedSkuItem) :=
  match pyStripVal (pyGet item.sku_name (.pystr "UNKNOWN_SKU_NAME")) with
  | none => .error .attributeError
  | some sku_name =>
  match pyStripVal (pyGet item.sku_invoice (.pystr "UNKNOWN_SKU")) with
  | none => .error .attributeError
  | some sku_as_extracted =>
  let paid0 := pyGet item.paid_qty .pynone
  let free0 := pyGet item.free_qty .pynone
  if paid0 = .pynone ∨ free0 = .pynone then .ok none
  else
    match pyInt paid0, pyInt free0 with
    | some paid_qty, some free_qty =>
      let mrp_str := pyGet item.mrp .pynone
      let base_rate_str := pyGet item.base_rate .pynone
      match pyStripVal (pyGet item.base_discount_percent (.pystr "0")) with
      | none => .error .attributeError
      | some discount_str =>
        let mrpPart : Option ℚ := if pyTruthy mrp_str then pyFloat mrp_str else some 0
        let basePart : Option ℚ := if pyTruthy base_rate_str then pyFloat base_rate_str else some 0
        let discPart : Option ℚ := if discount_str = "" then some 0 else pyFloatOfString discount_str
        match mrpPart, basePart, discPart with
        | some mrp, some base_rate, some base_discount_percent =>
          if paid_qty = 0 ∧ free_qty = 0 then .ok none
          else
            let total_qty := paid_qty + free_qty
            let amt := pyGet item.amount .pynone
            let calculated_rate_per_qty : Option ℚ :=
              if amt ≠ .pynone ∧ 0 < total_qty then
                (pyFloat amt).map (fun a => a / ((total_qty : ℤ) : ℚ))
              else none
            let m := calculate_item_metrics (some base_rate) (some base_discount_percent)
              (some paid_qty) (some free_qty)
            match pyStripVal (pyGet item.sku_supplier (.pystr "UNKNOWN_SUPPLIER")) with
            | none => .error .attributeError
            | some supplier =>
            match pyStripVal (pyGet item.batch_number (.pystr "N/A")) with
            | none => .error .attributeError
            | some batch =>
              .ok (some
                ⟨supplier, sku_as_extracted, sku_name, mrp, base_rate, paid_qty, free_qty,
                  toString paid_qty ++ "+" ++ toString free_qty,
                  m.1, m.2.1, m.2.2, calculated_rate_per_qty, batch⟩)
        | _, _, _ => .ok none
    | _, _ => .ok none

instance {ε α : Type} [DecidableEq ε] [DecidableEq α] : DecidableEq (Except ε α)
  | .ok x, .ok y =>
    if h : x = y then isTrue (by rw [h]) else isFalse (fun hc => h (by injection hc))
  | .ok _, .error _ => isFalse (fun hc => Except.noConfusion hc)
  | .error _, .ok _ => isFalse (fun hc => Except.noConfusion hc)
  | .error e, .error f =>
    if h : e = f then isTrue (by rw [h]) else isFalse (fun hc => h (by injection hc))

/-- Embedding of `preprocess_data` (src/sku_processing.py, lines 30-110). -/
def preprocess_data : List RawRecord → Except PyErr (List ProcessedSkuItem)
  | [] => .ok []
  | r :: rest =>
    match processRecord r with
    | .error e => .error e
    | .ok o =>
      match preprocess_data rest with
      | .error e => .error e
      | .ok l => .ok (o.toList ++ l)

/-- Insert into a list sorted by the boolean relation `le`, before the first
element that is not strictly earlier.  Together with `sortLe` this is a
stable sort; Python's `list.sort` is also stable, and a stable sort by a
total preorder has a unique result, so the two agree. -/
def insertLe {α : Type} (le : α → α → Bool) (a : α) : List α → List α
  | [] => [a]
  | b :: l => if le a b then a :: b :: l else b :: insertLe le a l

/-- Stable insertion sort by a boolean total preorder: model of Python
`list.sort(key=...)`. -/
def sortLe {α : Type} (le : α → α → Bool) : List α → List α
  | [] => []
  | a :: l => insertLe le a (sortLe le l)

/-- Lookup in an association list modelling a Python `dict`. -/
def dictFind {κ : Type} [DecidableEq κ] (m : List (κ × String)) (k : κ) : Option String :=
  (m.find? (fun p => decide (p.1 = k))).map (fun p => p.2)

/-- Assignment `m[k] = v` on an association list modelling a Python `dict`:
overwrite in place if the key is present, append otherwise.  (All dictionaries
built by the embedding have distinct keys, so replacing the first occurrence
is the Python behavior.) -/
def dictInsert {κ : Type} [DecidableEq κ] (m : List (κ × String)) (k : κ) (v : String) :
    List (κ × String) :=
  match m with
  | [] => [(k, v)]
  | p :: rest => if p.1 = k then (k, v) :: rest else p :: dictInsert rest k v

/-- Embedding of `get_supplier_unique_sku_counts` (src/sku_processing.py,
lines 112-121), read back through `.get(x.supplier, 0)`: the number of
distinct raw SKU codes a supplier carries across the whole processed item
list (0 for an unknown supplier, matching the `.get` default). -/
def get_supplier_unique_sku_counts (all_processed_items : List ProcessedSkuItem)
    (supplier : String) : ℕ :=
  (((all_processed_items.filter (fun i => decide (i.supplier = supplier))).map
    (fun i => i.sku)).dedup).length

/-- Strict comparison of the primary ranking component: a missing
`calculated_rate_per_qty` is replaced by `float('inf')` by the sort key of
the source, so `none` compares above every finite value. -/
def primLt : Option ℚ → Option ℚ → Bool
  | some a, some b => decide (a < b)
  | some _, none => true
  | none, _ => false

/-- The `+infinity`-completed value of the primary ranking component. -/
def primVal : Option ℚ → WithTop ℚ
  | some a => ((a : ℚ) : WithTop ℚ)
  | none => ⊤

/-- The composite sort key of `generate_comparison_table`
(src/sku_processing.py, lines 157-161) as a boolean total preorder:
lexicographic on (calculated rate with `None → inf`, `paid_qty`,
negated supplier catalog-breadth count). -/
def offerKeyLe (counts : String → ℕ) (x y : ProcessedSkuItem) : Bool :=
  primLt x.calculated_rate_per_qty y.calculated_rate_per_qty ||
    (decide (x.calculated_rate_per_qty = y.calculated_rate_per_qty) &&
      (decide (x.paid_qty < y.paid_qty) ||
        (decide (x.paid_qty = y.paid_qty) &&
          decide (counts y.supplier ≤ counts x.supplier))))

/-- The candidate offers of one comparison row, sorted exactly as
`offers_for_this_sku.sort(key=...)` does in `generate_comparison_table`;
the catalog-breadth counts come from the whole `all_processed_items` list,
not from the row's candidate set. -/
def rankedOffers (all_processed_items : List ProcessedSkuItem) (sku_name : String) :
    List ProcessedSkuItem :=
  sortLe (offerKeyLe (get_supplier_unique_sku_counts all_processed_items))
    (all_processed_items.filter (fun i => decide (i.sku_name = sku_name)))

/-- Two-decimal rendering of a rational, modelling the `f"{x:.2f}"` format of
the source (none of the verified properties depends on the digits). -/
def fmt2 (q : ℚ) : String :=
  let n : ℤ := ⌊q * 100 + 1 / 2⌋
  let m : ℕ := n.natAbs
  (if n < 0 then "-" else "") ++ toString (m / 100) ++ "." ++
    (if m % 100 < 10 then "0" else "") ++ toString (m % 100)

/-- Rendering of an optional rational, `"-"` for `None`. -/
def optFmt : Option ℚ → String
  | some q => fmt2 q
  | none => "-"

/-- The per-supplier column labels of one cell-group, in source order
(src/sku_processing.py, lines 140-147 and 150). -/
def displayCols : List String :=
  ["MRP", "Base Rate", "Eff. Rate", "Eff. Disc% ", "Qty", "SKU Code",
    "Batch Number", "Calc. Rate/Qty"]

/-- The eight cell values one matching offer writes into its supplier's
cell-group (src/sku_processing.py, lines 140-147). -/
def supplierCells (item : ProcessedSkuItem) : List (String × String) :=
  [("MRP", fmt2 item.mrp),
    ("Base Rate", fmt2 item.base_rate),
    ("Eff. Rate", optFmt item.eff_rate_display_column),
    ("Eff. Disc% ", (match item.eff_disc_display_column with
      | some q => fmt2 q ++ " %"
      | none => "-")),
    ("Qty", item.qty_display_str),
    ("SKU Code", item.sku),
    ("Batch Number", item.batch_number),
    ("Calc. Rate/Qty", optFmt item.calculated_rate_per_qty)]

/-- One step of the item loop of `generate_comparison_table`
(src/sku_processing.py, lines 133-147), restricted to its effect on the
row dictionary. -/
def addItemCells (display_suppliers_order : List String) (sku_name : String)
    (rd : List ((String × String) × String)) (item : ProcessedSkuItem) :
    List ((String × String) × String) :=
  if item.sku_name = sku_name ∧ item.supplier ∈ display_suppliers_order then
    (supplierCells item).foldl (fun m kv => dictInsert m (item.supplier, kv.1) kv.2) rd
  else rd

/-- One step of the placeholder loop of `generate_comparison_table`
(src/sku_processing.py, lines 148-151): a supplier without an `"MRP"` cell
gets `"-"` in every column of its cell-group. -/
def fillStep (m : List ((String × String) × String)) (s : String) :
    List ((String × String) × String) :=
  if (dictFind m (s, "MRP")).isSome then m
  else displayCols.foldl (fun m2 c => dictInsert m2 (s, c) "-") m

/-- The placeholder loop of `generate_comparison_table`
(src/sku_processing.py, lines 148-151). -/
def fillMissing (display_suppliers_order : List String)
    (rd : List ((String × String) × String)) : List ((String × String) × String) :=
  display_suppliers_order.foldl fillStep rd

/-- The `Best Deal` computation of `generate_comparison_table`
(src/sku_processing.py, lines 153-165): sort the candidates, take the first,
and emit its supplier only when its `calculated_rate_per_qty` is present. -/
def bestDealText (all_processed_items : List ProcessedSkuItem) (sku_name : String) : String :=
  match rankedOffers all_processed_items sku_name with
  | [] => "-"
  | best :: _ =>
    match best.calculated_rate_per_qty with
    | some _ => best.supplier
    | none => "-"

/-- Boolean string order used to model Python `sorted` on strings. -/
def strLe (a b : String) : Bool := decide (a ≤ b)

/-- The `Original SKUs` cell (src/sku_processing.py, lines 131, 136-137 and
168): the sorted, comma-joined set of non-empty raw invoice codes collapsed
under this canonical name. -/
def originalSkusText (all_processed_items : List ProcessedSkuItem) (sku_name : String) : String :=
  String.intercalate ", "
    (sortLe strLe
      ((((all_processed_items.filter (fun i => decide (i.sku_name = sku_name))).filter
        (fun i => decide (i.sku ≠ ""))).map (fun i => i.sku)).dedup))

/-- One emitted comparison row. -/
structure ComparisonRow where
  sku_name : String
  cells : List ((String × String) × String)
  original_skus : String
  best_deal : String
deriving DecidableEq

/-- Embedding of one iteration of the row loop of `generate_comparison_table`
(src/sku_processing.py, lines 128-171). -/
def generateRow (all_processed_items : List ProcessedSkuItem)
    (display_suppliers_order : List String) (sku_name : String) : ComparisonRow :=
  let rd0 : List ((String × String) × String) := [(("SKU Name", ""), sku_name)]
  let rd1 := all_processed_items.foldl (addItemCells display_suppliers_order sku_name) rd0
  let rd2 := fillMissing display_suppliers_order rd1
  ⟨sku_name, rd2, originalSkusText all_processed_items sku_name,
    bestDealText all_processed_items sku_name⟩

/-- Embedding of `generate_comparison_table` (src/sku_processing.py, lines
123-196) at the level of its emitted rows: one row per requested canonical
name, in request order (the trailing pandas re-indexing is presentation
only). -/
def generate_comparison_table (target_sku_names : List String)
    (all_processed_items : List ProcessedSkuItem)
    (display_suppliers_order : List String) : List ComparisonRow :=
  target_sku_names.map (generateRow all_processed_items display_suppliers_order)

/-- Lookup with default: Python `d.get(k, dflt)` for string dictionaries. -/
def lookupD (m : List (String × String)) (k dflt : String) : String :=
  (dictFind m k).getD dflt

/-- Embedding of the final-map construction of `normalize_sku_names`
(src/sku_processing.py, lines 297-302): every original name is mapped to the
value its unique form received from the LLM, defaulting to itself. -/
def final_sku_map (temp_normalized_map : List (String × String))
    (sku_names : List String) : List (String × String) :=
  sku_names.foldl
    (fun acc original_name => dictInsert acc original_name
      (lookupD temp_normalized_map original_name original_name))
    []

/-- Modelled from the spec: `apply_canonical_names` of section 4.4 is not
part of src/ (only the mapping construction is); per the spec, each offer's
product name is looked up in the mapping and replaced when present, left
unchanged when absent.  Stated here on the list of names. -/
def applyAssign (mapping : List (String × String)) (names : List String) : List String :=
  names.map (fun n => lookupD mapping n n)

/-- A raw-record field that is either absent or holds an actual string:
exactly the shape under which the `.strip()` calls of the normalizer cannot
raise. -/
def strFieldOk : Option PyVal → Bool
  | none => true
  | some (.pystr _) => true
  | some _ => false

/-- All five string-typed fields of a raw record are absent-or-string. -/
def stringFieldsOk (r : RawRecord) : Bool :=
  strFieldOk r.sku_name && strFieldOk r.sku_invoice && strFieldOk r.base_discount_percent &&
    strFieldOk r.sku_supplier && strFieldOk r.batch_number

/-- The numeric fields of a raw record parse to non-negative values whenever
they parse at all. -/
def nonNegRaw (r : RawRecord) : Bool :=
  decide (0 ≤ (pyFloat (pyGet r.mrp .pynone)).getD 0) &&
    decide (0 ≤ (pyFloat (pyGet r.base_rate .pynone)).getD 0) &&
    decide (0 ≤ (pyInt (pyGet r.paid_qty .pynone)).getD 0) &&
    decide (0 ≤ (pyInt (pyGet r.free_qty .pynone)).getD 0)

/-- The first character, if any, is not a digit. -/
def headNotDigit : List Char → Bool
  | [] => true
  | c :: _ => !c.isDigit

/-- The first character, if any, is not whitespace. -/
def headNotWs : List Char → Bool
  | [] => true
  | c :: _ => !(isWs c)

/-- The remainder after a leading integer cannot be continued into the
`<int> + <int>` form: after optional whitespace there is either nothing, a
character other than a plus sign, or a plus sign not followed (after optional
whitespace) by a digit. -/
def noPlusContinuation (cs : List Char) : Bool :=
  match dropWs cs with
  | [] => true
  | c :: r2 => if c = '+' then (takeDigits (dropWs r2)).1.isEmpty else true

/-- Raw record of Supplier A in the end-to-end scenario of the specification:
base rate 100, discount 10%, quantity 10+1, amount absent. -/
def rawSupplierA : RawRecord :=
  ⟨some (.pystr "Supplier A"), some (.pystr "A1"), some (.pystr "PRODUCT X"),
    some (.pystr "120"), some (.pystr "100"), some (.pystr "10"),
    some (.pyint 10), some (.pyint 1), none, some (.pystr "B1")⟩

/-- Raw record of Supplier B in the end-to-end scenario of the specification:
base rate 95, discount 0%, quantity 10+0, amount absent. -/
def rawSupplierB : RawRecord :=
  ⟨some (.pystr "Supplier B"), some (.pystr "B1"), some (.pystr "PRODUCT X"),
    some (.pystr "110"), some (.pystr "95"), some (.pystr "0"),
    some (.pyint 10), some (.pyint 0), none, some (.pystr "B2")⟩

/-- The processed offer of Supplier A: comparison price 81.82, amount-based
rate absent. -/
def itemSupplierA : ProcessedSkuItem :=
  ⟨"Supplier A", "A1", "PRODUCT X", 120, 100, 10, 1, "10+1",
    some 90, some 10, some ((8182 / 100 : ℚ) : WithTop ℚ), none, "B1"⟩

/-- The processed offer of Supplier B: comparison price 95.00, amount-based
rate absent. -/
def itemSupplierB : ProcessedSkuItem :=
  ⟨"Supplier B", "B1", "PRODUCT X", 110, 95, 10, 0, "10+0",
    some 95, some 0, some ((95 : ℚ) : WithTop ℚ), none, "B2"⟩

/-- A raw record whose `sku_name` key is present with value `None`. -/
def rawNullName : RawRecord :=
  ⟨none, none, some .pynone, none, none, none, some (.pyint 1), some (.pyint 0), none, none⟩

/-- A raw record whose MRP string parses to a negative number. -/
def rawNegMrp : RawRecord :=
  ⟨some (.pystr "S"), some (.pystr "C"), some (.pystr "P"),
    some (.pystr "-5"), some (.pystr "10"), some (.pystr "0"),
    some (.pyint 1), some (.pyint 0), none, some (.pystr "N")⟩

/-- The offer the normalizer emits for `rawNegMrp`: its MRP is negative. -/
def itemNegMrp : ProcessedSkuItem :=
  ⟨"S", "C", "P", -5, 10, 1, 0, "1+0", some 10, some 0,
    some ((10 : ℚ) : WithTop ℚ), none, "N"⟩

/-! General lemmas about the sorting, dictionary and character-level helpers. -/

theorem mem_insertLe {α : Type} (le : α → α → Bool) (a x : α) (l : List α)
    (h : x ∈ insertLe le a l) : x = a ∨ x ∈ l := by
  induction l with
  | nil => simpa [insertLe] using h
  | cons b t ih =>
    by_cases hb : le a b = true
    · simp only [insertLe, hb, if_true] at h
      rcases List.mem_cons.mp h with h1 | h1
      · exact Or.inl h1
      · exact Or.inr h1
    · simp only [insertLe, hb, if_false] at h
      rcases List.mem_cons.mp h with h1 | h1
      · exact Or.inr (by simp [h1])
      · rcases ih h1 with h2 | h2
        · exact Or.inl h2
        · exact Or.inr (List.mem_cons_of_mem b h2)

theorem pairwise_insertLe {α : Type} (le : α → α → Bool)
    (htot : ∀ a b, le a b = true ∨ le b a = true)
    (htrans : ∀ a b c, le a b = true → le b c = true → le a c = true)
    (a : α) (l : List α) (hl : l.Pairwise (fun x y => le x y = true)) :
    (insertLe le a l).Pairwise (fun x y => le x y = true) := by
  induction l with
  | nil => simp [insertLe]
  | cons b t ih =>
    rw [List.pairwise_cons] at hl
    by_cases h : le a b = true
    · simp only [insertLe, h, if_true]
      refine List.Pairwise.cons ?_ (List.Pairwise.cons hl.1 hl.2)
      intro x hx
      rcases List.mem_cons.mp hx with h1 | h1
      · subst h1; exact h
      · exact htrans a b x h (hl.1 x h1)
    · simp only [insertLe, h, if_false]
      refine List.Pairwise.cons ?_ (ih hl.2)
      intro x hx
      have hba : le b a = true := (htot a b).resolve_left h
      rcases mem_insertLe le a x t hx with rfl | h2
      · exact hba
      · exact hl.1 x h2

theorem pairwise_sortLe {α : Type} (le : α → α → Bool)
    (htot : ∀ a b, le a b = true ∨ le b a = true)
    (htrans : ∀ a b c, le a b = true → le b c = true → le a c = true)
    (l : List α) : (sortLe le l).Pairwise (fun x y => le x y = true) := by
  induction l with
  | nil => simp [sortLe]
  | cons a t ih => exact pairwise_insertLe le htot htrans a (sortLe le t) ih

theorem mem_sortLe {α : Type} (le : α → α → Bool) (x : α) (l : List α)
    (h : x ∈ sortLe le l) : x ∈ l := by
  induction l with
  | nil => simp [sortLe] at h
  | cons a t ih =>
    rcases mem_insertLe le a x (sortLe le t) h with rfl | h2
    · simp
    · exact List.mem_cons_of_mem a (ih h2)

theorem dictFind_cons_ne {κ : Type} [DecidableEq κ] (p : κ × String)
    (rest : List (κ × String)) (k : κ) (h : p.1 ≠ k) :
    dictFind (p :: rest) k = dictFind rest k := by
  unfold dictFind
  rw [List.find?_cons_of_neg]
  simp [h]

theorem dictFind_cons_eq {κ : Type} [DecidableEq κ] (p : κ × String)
    (rest : List (κ × String)) (k : κ) (h : p.1 = k) :
    dictFind (p :: rest) k = some p.2 := by
  unfold dictFind
  rw [List.find?_cons_of_pos _ (by simp [h])]
  rfl

theorem dictFind_insert_self {κ : Type} [DecidableEq κ] (m : List (κ × String))
    (k : κ) (v : String) : dictFind (dictInsert m k v) k = some v := by
  induction m with
  | nil => simp [dictInsert, dictFind]
  | cons p rest ih =>
    by_cases h : p.1 = k
    · have e1 : dictInsert (p :: rest) k v = (k, v) :: rest := by simp [dictInsert, h]
      rw [e1, dictFind_cons_eq _ _ _ rfl]
    · have e1 : dictInsert (p :: rest) k v = p :: dictInsert rest k v := by
        simp [dictInsert, h]
      rw [e1, dictFind_cons_ne _ _ _ h, ih]

theorem dictFind_insert_ne {κ : Type} [DecidableEq κ] (m : List (κ × String))
    (k k2 : κ) (v : String) (hk : k2 ≠ k) :
    dictFind (dictInsert m k v) k2 = dictFind m k2 := by
  induction m with
  | nil =>
    have e1 : dictInsert ([] : List (κ × String)) k v = [(k, v)] := rfl
    rw [e1, dictFind_cons_ne _ _ _ (Ne.symm hk)]
  | cons p rest ih =>
    by_cases h : p.1 = k
    · have e1 : dictInsert (p :: rest) k v = (k, v) :: rest := by simp [dictInsert, h]
      rw [e1, dictFind_cons_ne _ _ _ (Ne.symm hk), dictFind_cons_ne]
      rw [h]
      exact Ne.symm hk
    · have e1 : dictInsert (p :: rest) k v = p :: dictInsert rest k v := by
        simp [dictInsert, h]
      by_cases h2 : p.1 = k2
      · rw [e1, dictFind_cons_eq _ _ _ h2, dictFind_cons_eq _ _ _ h2]
      · rw [e1, dictFind_cons_ne _ _ _ h2, dictFind_cons_ne _ _ _ h2, ih]

theorem ws_not_digit {c : Char} (h : isWs c = true) : c.isDigit = false := by
  simp [isWs, Char.isWhitespace] at h
  rcases h with ((rfl | rfl) | rfl) | rfl <;> decide

theorem digit_not_ws {c : Char} (h : c.isDigit = true) : isWs c = false := by
  cases hw : isWs c with
  | false => rfl
  | true => rw [ws_not_digit hw] at h; cases h

theorem dropWs_append_ws (w x : List Char) (hw : w.all isWs = true) :
    dropWs (w ++ x) = dropWs x := by
  induction w with
  | nil => simp
  | cons c cs ih =>
    simp only [List.all_cons, Bool.and_eq_true] at hw
    simpa [dropWs, hw.1] using ih hw.2

theorem dropWs_of_headNotWs (x : List Char) (hx : headNotWs x = true) : dropWs x = x := by
  cases x with
  | nil => rfl
  | cons c cs =>
    simp only [headNotWs, Bool.not_eq_true'] at hx
    simp [dropWs, hx]

theorem dropWs_append (x y : List Char) :
    dropWs (x ++ y) = if dropWs x = [] then dropWs y else dropWs x ++ y := by
  induction x with
  | nil => simp [dropWs]
  | cons c cs ih =>
    by_cases h : isWs c = true
    · simpa [dropWs, h] using ih
    · simp [dropWs, h]

theorem takeDigits_append (d x : List Char) (hd : d.all Char.isDigit = true)
    (hx : headNotDigit x = true) : takeDigits (d ++ x) = (d, x) := by
  induction d with
  | nil =>
    cases x with
    | nil => rfl
    | cons c cs =>
      simp only [headNotDigit, Bool.not_eq_true'] at hx
      simp [takeDigits, hx]
  | cons c cs ih =>
    simp only [List.all_cons, Bool.and_eq_true] at hd
    simp [takeDigits, hd.1, ih hd.2]

theorem stripTail_append (a b : List Char) (ha : headNotWs a.reverse = true) :
    stripTail (a ++ b) = a ++ stripTail b := by
  unfold stripTail
  rw [List.reverse_append, dropWs_append]
  by_cases h : dropWs b.reverse = []
  · simp [h, dropWs_of_headNotWs _ ha]
  · simp [h, List.reverse_append]

theorem dropWs_exists (l : List Char) : ∃ t, l = t ++ dropWs l := by
  induction l with
  | nil => exact ⟨[], rfl⟩
  | cons c cs ih =>
    by_cases h : isWs c = true
    · obtain ⟨t, ht⟩ := ih
      refine ⟨c :: t, ?_⟩
      simpa [dropWs, h] using ht
    · exact ⟨[], by simp [dropWs, h]⟩

theorem headNotDigit_stripTail (rest : List Char) (h : headNotDigit rest = true) :
    headNotDigit (stripTail rest) = true := by
  obtain ⟨t, ht⟩ := dropWs_exists rest.reverse
  have hrest : rest = stripTail rest ++ t.reverse := by
    conv_lhs => rw [← List.reverse_reverse rest, ht]
    simp [stripTail, List.reverse_append]
  cases hs : stripTail rest with
  | nil => rfl
  | cons c cs =>
    rw [hs] at hrest
    rw [hrest] at h
    simpa [headNotDigit] using h

theorem headNotWs_reverse_append_digits (X d : List Char) (hne : d ≠ [])
    (hd : d.all Char.isDigit = true) : headNotWs (X ++ d).reverse = true := by
  rw [List.reverse_append]
  cases hr : d.reverse with
  | nil => exact absurd (by simpa using congrArg List.reverse hr) hne
  | cons c cs =>
    have hc : c ∈ d := by
      have h1 : c ∈ d.reverse := by rw [hr]; simp
      simpa using h1
    have hcd : c.isDigit = true := by
      rw [List.all_eq_true] at hd
      exact hd c hc
    simp [headNotWs, digit_not_ws hcd]

theorem headNotDigit_ws_plus (w z : List Char) (hw : w.all isWs = true) :
    headNotDigit (w ++ '+' :: z) = true := by
  cases w with
  | nil => simp [headNotDigit]
  | cons c cs =>
    simp only [List.all_cons, Bool.and_eq_true] at hw
    simp [headNotDigit, ws_not_digit hw.1]

theorem headNotWs_digits (d z : List Char) (hne : d ≠ []) (hd : d.all Char.isDigit = true) :
    headNotWs (d ++ z) = true := by
  cases d with
  | nil => exact absurd rfl hne
  | cons c cs =>
    simp only [List.all_cons, Bool.and_eq_true] at hd
    simp [headNotWs, digit_not_ws hd.1]

/-! Claim theorems. -/

/-- C2: the rate calculator returns `(None, None, None)` exactly when the
base rate is null or negative or a paid/free quantity is null; otherwise,
with a null discount treated as 0.0, it returns the rounded effective unit
price `base_rate * (1 - discount/100)`, the discount echoed back rounded,
and the rounded normalized comparison price
`paid * effective_unit_price / (paid + free)`, where a zero quantity sum
yields `+infinity` if `paid > 0` and `0.0` otherwise; in particular
`compute_rates(100, 10, 10, 0) = (90.00, 10.00, 90.00)` and
`compute_rates(100, 0, 10, 2) = (100.00, 0.00, 83.33)`. -/
theorem c2_rate_calculator :
    (∀ (br bd : Option ℚ) (pq fq : Option ℤ),
      calculate_item_metrics br bd pq fq = (none, none, none) ↔
        br = none ∨ (∃ b, br = some b ∧ b < 0) ∨ pq = none ∨ fq = none) ∧
    (∀ (b : ℚ) (bd : Option ℚ) (p f : ℤ), 0 ≤ b → p + f ≠ 0 →
      calculate_item_metrics (some b) bd (some p) (some f) =
        (some (round2 (b * (1 - bd.getD 0 / 100))), some (round2 (bd.getD 0)),
          some ((round2 (((p : ℚ) * (b * (1 - bd.getD 0 / 100))) / ((p : ℚ) + (f : ℚ))) : ℚ)
            : WithTop ℚ))) ∧
    (∀ (b : ℚ) (bd : Option ℚ) (p f : ℤ), 0 ≤ b → p + f = 0 →
      calculate_item_metrics (some b) bd (some p) (some f) =
        (some (round2 (b * (1 - bd.getD 0 / 100))), some (round2 (bd.getD 0)),
          some (if 0 < p then (⊤ : WithTop ℚ) else ((0 : ℚ) : WithTop ℚ)))) ∧
    calculate_item_metrics (some 100) (some 10) (some 10) (some 0) =
      (some 90, some 10, some ((90 : ℚ) : WithTop ℚ)) ∧
    calculate_item_metrics (some 100) (some 0) (some 10) (some 2) =
      (some 100, some 0, some ((8333 / 100 : ℚ) : WithTop ℚ)) := by
  refine ⟨?_, ?_, ?_, by decide, by decide⟩
  · intro br bd pq fq
    constructor
    · intro h
      cases br with
      | none => exact Or.inl rfl
      | some b =>
        cases pq with
        | none => exact Or.inr (Or.inr (Or.inl rfl))
        | some p =>
          cases fq with
          | none => exact Or.inr (Or.inr (Or.inr rfl))
          | some f =>
            by_cases hb : b < 0
            · exact Or.inr (Or.inl ⟨b, rfl, hb⟩)
            · exfalso
              simp [calculate_item_metrics, hb] at h
    · intro h
      rcases h with rfl | ⟨b, rfl, hb⟩ | rfl | rfl
      · cases pq <;> cases fq <;> rfl
      · cases pq with
        | none => rfl
        | some p =>
          cases fq with
          | none => rfl
          | some f => simp [calculate_item_metrics, hb]
      · cases br <;> cases fq <;> rfl
      · cases br <;> cases pq <;> rfl
  · intro b bd p f hb hpf
    simp [calculate_item_metrics, not_lt.mpr hb, hpf, round2Inf]
  · intro b bd p f hb hpf
    by_cases hp : 0 < p
    · simp [calculate_item_metrics, not_lt.mpr hb, hpf, hp, round2Inf]
    · simp [calculate_item_metrics, not_lt.mpr hb, hpf, hp, round2Inf, round2]
      norm_num

/-- Witness for C2 at concrete inputs: both the normal-case formula and the
degenerate zero-quantity rule are instantiated and every hypothesis is
discharged by computation. -/
theorem c2_rate_calculator_witness :
    calculate_item_metrics (some 100) (some 10) (some 10) (some 1) =
      (some (round2 ((100 : ℚ) * (1 - (some (10 : ℚ)).getD 0 / 100))),
        some (round2 ((some (10 : ℚ)).getD 0)),
        some ((round2 ((((10 : ℤ) : ℚ) * (100 * (1 - (some (10 : ℚ)).getD 0 / 100))) /
          (((10 : ℤ) : ℚ) + ((1 : ℤ) : ℚ))) : ℚ) : WithTop ℚ)) ∧
    calculate_item_metrics (some 100) (some 10) (some 1) (some (-1)) =
      (some (round2 ((100 : ℚ) * (1 - (some (10 : ℚ)).getD 0 / 100))),
        some (round2 ((some (10 : ℚ)).getD 0)),
        some (if 0 < (1 : ℤ) then (⊤ : WithTop ℚ) else ((0 : ℚ) : WithTop ℚ))) :=
  ⟨c2_rate_calculator.2.1 100 (some 10) 10 1 (by norm_num) (by norm_num),
    c2_rate_calculator.2.2.1 100 (some 10) 1 (-1) (by norm_num) (by norm_num)⟩

/-- C10: the earlier revision of the rate calculator (src/app.py) and the
later revision (src/sku_processing.py) are extensionally equal despite their
differently written guard conditions. -/
theorem c10_revisions_agree (br bd : Option ℚ) (pq fq : Option ℤ) :
    calculate_item_metrics_app br bd pq fq = calculate_item_metrics br bd pq fq := by
  cases br with
  | none =>
    cases pq <;> cases fq <;>
      simp [calculate_item_metrics, calculate_item_metrics_app, isNegOpt]
  | some b =>
    cases pq with
    | none =>
      cases fq <;> simp [calculate_item_metrics, calculate_item_metrics_app, isNegOpt]
    | some p =>
      cases fq with
      | none => simp [calculate_item_metrics, calculate_item_metrics_app, isNegOpt]
      | some f =>
        by_cases hb : b < 0 <;>
          simp [calculate_item_metrics, calculate_item_metrics_app, isNegOpt, hb]

theorem takeDigits_eq (cs : List Char) :
    ∀ (d r : List Char), takeDigits cs = (d, r) →
      cs = d ++ r ∧ d.all Char.isDigit = true ∧ headNotDigit r = true := by
  induction cs with
  | nil =>
    intro d r h
    simp only [takeDigits, Prod.mk.injEq] at h
    obtain ⟨h1, h2⟩ := h
    subst h1
    subst h2
    exact ⟨rfl, rfl, rfl⟩
  | cons c cs ih =>
    intro d r h
    cases hc : c.isDigit with
    | true =>
      simp only [takeDigits, hc, if_true, Prod.mk.injEq] at h
      obtain ⟨h1, h2⟩ := h
      subst h1
      subst h2
      obtain ⟨e1, e2, e3⟩ := ih (takeDigits cs).1 (takeDigits cs).2 rfl
      refine ⟨?_, ?_, e3⟩
      · rw [List.cons_append, ← e1]
      · simp [hc, e2]
    | false =>
      simp only [takeDigits, hc, Bool.false_eq_true, if_false, Prod.mk.injEq] at h
      obtain ⟨h1, h2⟩ := h
      subst h1
      subst h2
      exact ⟨rfl, rfl, by simp [headNotDigit, hc]⟩

theorem dropWs_eq (cs : List Char) :
    ∃ w, cs = w ++ dropWs cs ∧ w.all isWs = true ∧ headNotWs (dropWs cs) = true := by
  induction cs with
  | nil => exact ⟨[], rfl, rfl, rfl⟩
  | cons c cs ih =>
    cases hc : isWs c with
    | true =>
      obtain ⟨w, hw, hall, hh⟩ := ih
      refine ⟨c :: w, ?_, ?_, ?_⟩
      · rw [show dropWs (c :: cs) = dropWs cs from by simp [dropWs, hc],
          List.cons_append, ← hw]
      · simp [hc, hall]
      · rw [show dropWs (c :: cs) = dropWs cs from by simp [dropWs, hc]]
        exact hh
    | false =>
      refine ⟨[], ?_, rfl, ?_⟩
      · rw [show dropWs (c :: cs) = c :: cs from by simp [dropWs, hc]]
        rfl
      · rw [show dropWs (c :: cs) = c :: cs from by simp [dropWs, hc]]
        simp [headNotWs, hc]

/-- C4: the quantity parser returns `(0,0)` on null or empty input, `(N,M)`
when the (stripped) string begins with an integer, optional whitespace, a
plus sign, optional whitespace and a second integer, `(N,0)` when it merely
begins with an integer, and `(0,0)` otherwise; only the leading match counts
and trailing garbage is ignored.  The third clause covers EVERY non-empty
string: its stripped form either matches the full `<int> + <int>` pattern,
or begins with an integer not continued into that pattern, or does not begin
with a digit at all and yields `(0,0)`.  The fourth and fifth clauses state
the converse direction on raw strings built from the pattern pieces.
Integers are represented by their nonempty digit strings, trailing garbage
by a remainder that does not extend the match. -/
theorem c4_quantity_parsing :
    parse_quantity_string none = (0, 0) ∧
    parse_quantity_string (some "") = (0, 0) ∧
    (∀ (str : String), str ≠ "" →
      (∃ d1 w1 w2 d2 rest,
        stripChars str.data = d1 ++ w1 ++ '+' :: (w2 ++ (d2 ++ rest)) ∧
        d1 ≠ [] ∧ d1.all Char.isDigit = true ∧ w1.all isWs = true ∧
        w2.all isWs = true ∧ d2 ≠ [] ∧ d2.all Char.isDigit = true ∧
        headNotDigit rest = true ∧
        parse_quantity_string (some str) = (natOfDigits d1, natOfDigits d2)) ∨
      (∃ d1 rest,
        stripChars str.data = d1 ++ rest ∧
        d1 ≠ [] ∧ d1.all Char.isDigit = true ∧ headNotDigit rest = true ∧
        noPlusContinuation rest = true ∧
        parse_quantity_string (some str) = (natOfDigits d1, 0)) ∨
      (headNotDigit (stripChars str.data) = true ∧
        parse_quantity_string (some str) = (0, 0))) ∧
    (∀ (d1 w1 w2 d2 rest : List Char),
      d1 ≠ [] → d1.all Char.isDigit = true →
      w1.all isWs = true → w2.all isWs = true →
      d2 ≠ [] → d2.all Char.isDigit = true →
      headNotDigit rest = true →
      parse_quantity_string (some (String.mk (d1 ++ w1 ++ '+' :: (w2 ++ (d2 ++ rest))))) =
        (natOfDigits d1, natOfDigits d2)) ∧
    (∀ (d1 rest : List Char),
      d1 ≠ [] → d1.all Char.isDigit = true →
      headNotDigit rest = true →
      noPlusContinuation (stripTail rest) = true →
      parse_quantity_string (some (String.mk (d1 ++ rest))) = (natOfDigits d1, 0)) ∧
    parse_quantity_string (some "16+0") = (16, 0) ∧
    parse_quantity_string (some "32 + 8") = (32, 8) ∧
    parse_quantity_string (some "15") = (15, 0) ∧
    parse_quantity_string (some "abc") = (0, 0) ∧
    parse_quantity_string (some " 15") = (15, 0) ∧
    parse_quantity_string (some "x+5") = (0, 0) ∧
    parse_quantity_string (some "   ") = (0, 0) := by
  refine ⟨rfl, rfl, ?_, ?_, ?_, by decide, by decide, by decide, by decide,
    by decide, by decide, by decide⟩
  · intro str hstr
    have hp : parse_quantity_string (some str) = parseQtyChars (stripChars str.data) := by
      rw [parse_quantity_string, if_neg hstr]
    obtain ⟨d1, r1, h1⟩ : ∃ d r, takeDigits (stripChars str.data) = (d, r) := ⟨_, _, rfl⟩
    obtain ⟨hcs, hd1, hr1⟩ := takeDigits_eq _ _ _ h1
    by_cases hd1e : d1 = []
    · right; right
      subst hd1e
      constructor
      · rw [show stripChars str.data = r1 from by simpa using hcs]
        exact hr1
      · rw [hp]
        simp [parseQtyChars, h1]
    · obtain ⟨w1, hw1eq, hw1all, _⟩ := dropWs_eq r1
      cases h2 : dropWs r1 with
      | nil =>
        right; left
        refine ⟨d1, r1, hcs, hd1e, hd1, hr1, ?_, ?_⟩
        · simp [noPlusContinuation, h2]
        · rw [hp]
          simp [parseQtyChars, h1, hd1e, h2]
      | cons c r2 =>
        by_cases hc : c = '+'
        · subst hc
          obtain ⟨d2, rest2, h3⟩ : ∃ d r, takeDigits (dropWs r2) = (d, r) := ⟨_, _, rfl⟩
          obtain ⟨hr2eq, hd2, hrest2⟩ := takeDigits_eq _ _ _ h3
          by_cases hd2e : d2 = []
          · right; left
            refine ⟨d1, r1, hcs, hd1e, hd1, hr1, ?_, ?_⟩
            · subst hd2e
              simp [noPlusContinuation, h2, h3]
            · rw [hp]
              simp [parseQtyChars, h1, hd1e, h2, h3, hd2e]
          · left
            obtain ⟨w2, hw2eq, hw2all, _⟩ := dropWs_eq r2
            rw [h2] at hw1eq
            rw [hr2eq] at hw2eq
            refine ⟨d1, w1, w2, d2, rest2, ?_, hd1e, hd1, hw1all, hw2all,
              hd2e, hd2, hrest2, ?_⟩
            · rw [hcs, hw1eq, hw2eq]
              simp [List.append_assoc]
            · rw [hp]
              simp [parseQtyChars, h1, hd1e, h2, h3, hd2e]
        · right; left
          refine ⟨d1, r1, hcs, hd1e, hd1, hr1, ?_, ?_⟩
          · simp [noPlusContinuation, h2, hc]
          · rw [hp]
            simp [parseQtyChars, h1, hd1e, h2, hc]
  · intro d1 w1 w2 d2 rest h1 h2 h3 h4 h5 h6 h7
    have hne : String.mk (d1 ++ w1 ++ '+' :: (w2 ++ (d2 ++ rest))) ≠ "" := by
      cases d1 with
      | nil => exact absurd rfl h1
      | cons c cs => simp [String.ext_iff]
    rw [parse_quantity_string, if_neg hne]
    have hdata : (String.mk (d1 ++ w1 ++ '+' :: (w2 ++ (d2 ++ rest)))).data =
        d1 ++ w1 ++ '+' :: (w2 ++ (d2 ++ rest)) := rfl
    rw [hdata]
    have hstep1 : dropWs (d1 ++ w1 ++ '+' :: (w2 ++ (d2 ++ rest))) =
        d1 ++ w1 ++ '+' :: (w2 ++ (d2 ++ rest)) := by
      apply dropWs_of_headNotWs
      have e : d1 ++ w1 ++ '+' :: (w2 ++ (d2 ++ rest)) =
          d1 ++ (w1 ++ '+' :: (w2 ++ (d2 ++ rest))) := by
        simp [List.append_assoc]
      rw [e]
      exact headNotWs_digits d1 _ h1 h2
    have hregroup : d1 ++ w1 ++ '+' :: (w2 ++ (d2 ++ rest)) =
        ((d1 ++ w1 ++ '+' :: w2) ++ d2) ++ rest := by
      simp [List.append_assoc]
    have hstep2 : stripTail (d1 ++ w1 ++ '+' :: (w2 ++ (d2 ++ rest))) =
        ((d1 ++ w1 ++ '+' :: w2) ++ d2) ++ stripTail rest := by
      rw [hregroup]
      exact stripTail_append _ rest (headNotWs_reverse_append_digits _ d2 h5 h6)
    rw [stripChars, hstep1, hstep2]
    have hregroup2 : ((d1 ++ w1 ++ '+' :: w2) ++ d2) ++ stripTail rest =
        d1 ++ (w1 ++ '+' :: (w2 ++ (d2 ++ stripTail rest))) := by
      simp [List.append_assoc]
    rw [hregroup2]
    have hrest2 : headNotDigit (stripTail rest) = true := headNotDigit_stripTail rest h7
    rw [parseQtyChars]
    rw [takeDigits_append d1 _ h2 (headNotDigit_ws_plus w1 _ h3)]
    simp only [h1, if_neg]
    rw [dropWs_append_ws w1 _ h3,
      dropWs_of_headNotWs ('+' :: (w2 ++ (d2 ++ stripTail rest))) (by simp [headNotWs, isWs])]
    simp only [if_pos rfl]
    rw [dropWs_append_ws w2 _ h4,
      dropWs_of_headNotWs (d2 ++ stripTail rest) (headNotWs_digits d2 _ h5 h6),
      takeDigits_append d2 _ h6 hrest2]
    simp [h1, h5]
  · intro d1 rest h1 h2 h3 h4
    have hne : String.mk (d1 ++ rest) ≠ "" := by
      cases d1 with
      | nil => exact absurd rfl h1
      | cons c cs => simp [String.ext_iff]
    rw [parse_quantity_string, if_neg hne]
    have hdata : (String.mk (d1 ++ rest)).data = d1 ++ rest := rfl
    rw [hdata]
    have hstep1 : dropWs (d1 ++ rest) = d1 ++ rest := by
      apply dropWs_of_headNotWs
      exact headNotWs_digits d1 _ h1 h2
    have hstep2 : stripTail (d1 ++ rest) = d1 ++ stripTail rest := by
      apply stripTail_append
      exact headNotWs_reverse_append_digits [] d1 h1 h2
    rw [stripChars, hstep1, hstep2]
    rw [parseQtyChars]
    rw [takeDigits_append d1 _ h2 (headNotDigit_stripTail rest h3)]
    simp only [h1, if_neg]
    rw [noPlusContinuation] at h4
    cases hcase : dropWs (stripTail rest) with
    | nil => simp [h1]
    | cons c r2 =>
      rw [hcase] at h4
      by_cases hc : c = '+'
      · rw [hc] at h4
        simp only [if_pos rfl] at h4
        have hq : (takeDigits (dropWs r2)).1 = [] := by
          simpa [List.isEmpty_iff] using h4
        simp [h1, hc, hq]
      · simp [h1, hc]

/-- Witness for C4: the complete coverage clause applied at `"x+5"` and the
two universally quantified pattern clauses applied at `"32 + 8"` and `"15"`,
all hypotheses discharged by computation. -/
theorem c4_quantity_parsing_witness :
    parse_quantity_string (some "32 + 8") = (32, 8) ∧
    parse_quantity_string (some "15") = (15, 0) ∧
    ((∃ d1 w1 w2 d2 rest,
        stripChars ("x+5" : String).data = d1 ++ w1 ++ '+' :: (w2 ++ (d2 ++ rest)) ∧
        d1 ≠ [] ∧ d1.all Char.isDigit = true ∧ w1.all isWs = true ∧
        w2.all isWs = true ∧ d2 ≠ [] ∧ d2.all Char.isDigit = true ∧
        headNotDigit rest = true ∧
        parse_quantity_string (some "x+5") = (natOfDigits d1, natOfDigits d2)) ∨
      (∃ d1 rest,
        stripChars ("x+5" : String).data = d1 ++ rest ∧
        d1 ≠ [] ∧ d1.all Char.isDigit = true ∧ headNotDigit rest = true ∧
        noPlusContinuation rest = true ∧
        parse_quantity_string (some "x+5") = (natOfDigits d1, 0)) ∨
      (headNotDigit (stripChars ("x+5" : String).data) = true ∧
        parse_quantity_string (some "x+5") = (0, 0))) := by
  have h1 := c4_quantity_parsing.2.2.2.1 ['3', '2'] [' '] [' '] ['8'] []
    (by decide) (by decide) (by decide) (by decide) (by decide) (by decide) (by decide)
  have h2 := c4_quantity_parsing.2.2.2.2.1 ['1', '5'] []
    (by decide) (by decide) (by decide) (by decide)
  refine ⟨?_, ?_, c4_quantity_parsing.2.2.1 "x+5" (by decide)⟩
  · rw [show ("32 + 8" : String) =
      String.mk (['3', '2'] ++ [' '] ++ '+' :: ([' '] ++ (['8'] ++ []))) from by decide]
    rw [h1]
    decide
  · rw [show ("15" : String) = String.mk (['1', '5'] ++ []) from by decide]
    rw [h2]
    decide

/-- C8 counterexample: with the chain mapping `a ↦ b, b ↦ c`, applying the
assignment twice to `["a"]` gives `["c"]`, not the single-application result
`["b"]` — idempotence fails for an arbitrary mapping. -/
theorem c8_counterexample :
    applyAssign [("a", "b"), ("b", "c")] (applyAssign [("a", "b"), ("b", "c")] ["a"]) ≠
      applyAssign [("a", "b"), ("b", "c")] ["a"] := by decide

theorem final_map_lookup_aux (temp : List (String × String)) (names : List String)
    (acc : List (String × String)) (n : String)
    (h : n ∈ names ∨ dictFind acc n = some (lookupD temp n n)) :
    dictFind
      (names.foldl (fun a m => dictInsert a m (lookupD temp m m)) acc) n =
      some (lookupD temp n n) := by
  induction names generalizing acc with
  | nil =>
    rcases h with h | h
    · cases h
    · simpa using h
  | cons m rest ih =>
    simp only [List.foldl_cons]
    apply ih
    by_cases hm : n = m
    · subst hm
      right
      exact dictFind_insert_self acc n _
    · rcases h with h | h
      · rcases List.mem_cons.mp h with h1 | h1
        · exact absurd h1 hm
        · left; exact h1
      · right
        rw [dictFind_insert_ne acc m n _ hm]
        exact h

/-- C8 (amended): application of the canonical-name mapping is total — the
final map assigns to every original name the mapped value when present and
the name itself otherwise — and applying the assignment twice equals applying
it once provided every assigned value is itself a fixed point of the
assignment (the claim's unconditional idempotence fails, see the
counterexample). -/
theorem c8_canonical_mapping (temp : List (String × String)) (sku_names : List String) :
    (∀ n ∈ sku_names,
      dictFind (final_sku_map temp sku_names) n = some (lookupD temp n n)) ∧
    ((∀ n ∈ sku_names,
        lookupD temp (lookupD temp n n) (lookupD temp n n) = lookupD temp n n) →
      applyAssign temp (applyAssign temp sku_names) = applyAssign temp sku_names) := by
  constructor
  · intro n hn
    simpa [final_sku_map] using final_map_lookup_aux temp sku_names [] n (Or.inl hn)
  · intro h
    simp only [applyAssign, List.map_map]
    apply List.map_congr_left
    intro n hn
    exact h n hn

/-- Witness for C8: totality and conditional idempotence instantiated on a
concrete partial mapping, every hypothesis discharged by computation. -/
theorem c8_canonical_mapping_witness :
    dictFind
      (final_sku_map [("PAN 40MG TAB", "PANTOPRAZOLE 40MG TABLET")]
        ["PAN 40MG TAB", "CALPOL 500MG"]) "CALPOL 500MG" =
      some (lookupD [("PAN 40MG TAB", "PANTOPRAZOLE 40MG TABLET")]
        "CALPOL 500MG" "CALPOL 500MG") ∧
    applyAssign [("PAN 40MG TAB", "PANTOPRAZOLE 40MG TABLET")]
        (applyAssign [("PAN 40MG TAB", "PANTOPRAZOLE 40MG TABLET")]
          ["PAN 40MG TAB", "CALPOL 500MG"]) =
      applyAssign [("PAN 40MG TAB", "PANTOPRAZOLE 40MG TABLET")]
        ["PAN 40MG TAB", "CALPOL 500MG"] :=
  ⟨(c8_canonical_mapping [("PAN 40MG TAB", "PANTOPRAZOLE 40MG TABLET")]
      ["PAN 40MG TAB", "CALPOL 500MG"]).1 "CALPOL 500MG" (by decide),
    (c8_canonical_mapping [("PAN 40MG TAB", "PANTOPRAZOLE 40MG TABLET")]
      ["PAN 40MG TAB", "CALPOL 500MG"]).2 (by decide)⟩

/-- C5 counterexample: a record whose `sku_name` key is present with value
`None` makes the normalizer raise `AttributeError` (the `.strip()` call on
line 41 of src/sku_processing.py is outside every `try`), instead of being
skipped. -/
theorem c5_counterexample :
    preprocess_data [rawNullName] = .error .attributeError := by decide

theorem strip_of_strFieldOk (v : Option PyVal) (d : String) (h : strFieldOk v = true) :
    ∃ s, pyStripVal (pyGet v (.pystr d)) = some s := by
  cases v with
  | none => exact ⟨pyStrip d, rfl⟩
  | some pv =>
    cases pv with
    | pystr s => exact ⟨pyStrip s, rfl⟩
    | pynone => simp [strFieldOk] at h
    | pyint n => simp [strFieldOk] at h
    | pyfloat q => simp [strFieldOk] at h

theorem processRecord_no_error (r : RawRecord) (h : stringFieldsOk r = true) :
    ∃ o, processRecord r = .ok o := by
  simp only [stringFieldsOk, Bool.and_eq_true] at h
  obtain ⟨⟨⟨⟨hn, hi⟩, hd⟩, hs⟩, hb⟩ := h
  obtain ⟨s1, e1⟩ := strip_of_strFieldOk r.sku_name "UNKNOWN_SKU_NAME" hn
  obtain ⟨s2, e2⟩ := strip_of_strFieldOk r.sku_invoice "UNKNOWN_SKU" hi
  obtain ⟨s3, e3⟩ := strip_of_strFieldOk r.base_discount_percent "0" hd
  obtain ⟨s4, e4⟩ := strip_of_strFieldOk r.sku_supplier "UNKNOWN_SUPPLIER" hs
  obtain ⟨s5, e5⟩ := strip_of_strFieldOk r.batch_number "N/A" hb
  cases hres : processRecord r with
  | ok o => exact ⟨o, rfl⟩
  | error e =>
    exfalso
    simp only [processRecord, e1, e2, e3, e4, e5] at hres
    repeat' split at hres
    all_goals simp at hres

/-- C5 (amended): the normalizer processes every list of raw records without
raising — skipping each unusable record and continuing — provided that every
present value of the five string-typed fields (`sku_name`, `sku_invoice`,
`sku_supplier`, `base_discount_percent`, `batch_number`) is an actual string;
a present non-string value (e.g. null) of one of these fields raises
`AttributeError` instead of being skipped (see the counterexample). -/
theorem c5_normalizer_no_raise (raws : List RawRecord)
    (h : ∀ r ∈ raws, stringFieldsOk r = true) :
    ∃ l, preprocess_data raws = .ok l := by
  induction raws with
  | nil => exact ⟨[], rfl⟩
  | cons r rest ih =>
    obtain ⟨o, ho⟩ := processRecord_no_error r (h r (by simp))
    obtain ⟨l, hl⟩ := ih (fun x hx => h x (List.mem_cons_of_mem r hx))
    refine ⟨o.toList ++ l, ?_⟩
    rw [preprocess_data, ho, hl]

/-- Witness for C5: the amended no-raise theorem applied to a concrete batch
containing a well-formed record, a record with a malformed price and a record
with missing quantities — all skipped or processed, none raising. -/
theorem c5_normalizer_no_raise_witness :
    ∃ l,
      preprocess_data [rawSupplierA,
        ⟨some (.pystr "S"), some (.pystr "C"), some (.pystr "P"),
          some (.pystr "abc"), some (.pystr "10"), some (.pystr "0"),
          some (.pyint 1), some (.pyint 0), none, some (.pystr "N")⟩,
        ⟨some (.pystr "S"), none, some (.pystr "P"), none, none, none,
          none, none, none, none⟩] = .ok l :=
  c5_normalizer_no_raise _ (by decide)

theorem processRecord_qty_signal (r : RawRecord) (it : ProcessedSkuItem)
    (h : processRecord r = .ok (some it)) :
    ¬(it.paid_qty = 0 ∧ it.free_qty = 0) := by
  simp only [processRecord] at h
  repeat' split at h
  all_goals first
    | (simp at h; done)
    | (simp only [Except.ok.injEq, Option.some.injEq] at h; subst h; simp_all)

/-- C6: every offer emitted by the normalizer has a non-zero paid or free
quantity; a record whose resolved quantities are both exactly zero is dropped
during normalization and never reaches the comparison stage. -/
theorem c6_zero_qty_dropped (raws : List RawRecord) (l : List ProcessedSkuItem)
    (h : preprocess_data raws = .ok l) (it : ProcessedSkuItem) (hit : it ∈ l) :
    ¬(it.paid_qty = 0 ∧ it.free_qty = 0) := by
  induction raws generalizing l with
  | nil =>
    rw [preprocess_data] at h
    injection h with h2
    subst h2
    cases hit
  | cons r rest ih =>
    rw [preprocess_data] at h
    cases hr : processRecord r with
    | error e => rw [hr] at h; cases h
    | ok o =>
      rw [hr] at h
      cases hrest : preprocess_data rest with
      | error e => rw [hrest] at h; cases h
      | ok l2 =>
        rw [hrest] at h
        injection h with h2
        subst h2
        rcases List.mem_append.mp hit with h3 | h3
        · cases o with
          | none => cases h3
          | some it2 =>
            have : it = it2 := by simpa using h3
            subst this
            exact processRecord_qty_signal r it hr
        · exact ih l2 hrest h3

/-- Witness for C6 on a concrete normalization run. -/
theorem c6_zero_qty_dropped_witness :
    ¬(itemSupplierA.paid_qty = 0 ∧ itemSupplierA.free_qty = 0) :=
  c6_zero_qty_dropped [rawSupplierA] [itemSupplierA] (by decide)
    itemSupplierA (by decide)

/-- C7 counterexample: a record whose raw MRP string is `"-5"` survives
validation and is emitted with a negative `mrp` — the normalizer performs no
sign check. -/
theorem c7_counterexample :
    preprocess_data [rawNegMrp] = .ok [itemNegMrp] ∧ itemNegMrp.mrp < 0 :=
  ⟨by decide, by decide⟩

/-- C7 (amended): every offer emitted by the normalizer satisfies
`mrp ≥ 0`, `base_rate ≥ 0`, `paid_qty ≥ 0` and `free_qty ≥ 0` provided the
corresponding raw fields parse to non-negative values; the normalizer itself
performs no sign validation and passes negative parsed values through (see
the counterexample). -/
theorem c7_nonneg_fields (r : RawRecord) (it : ProcessedSkuItem)
    (h : processRecord r = .ok (some it)) (hnn : nonNegRaw r = true) :
    0 ≤ it.mrp ∧ 0 ≤ it.base_rate ∧ 0 ≤ it.paid_qty ∧ 0 ≤ it.free_qty := by
  simp only [nonNegRaw, Bool.and_eq_true, decide_eq_true_eq] at hnn
  obtain ⟨⟨⟨hmrp, hbase⟩, hpaid⟩, hfree⟩ := hnn
  simp only [processRecord] at h
  cases hm : pyTruthy (pyGet r.mrp .pynone) <;>
    cases hbr : pyTruthy (pyGet r.base_rate .pynone) <;>
    simp only [hm, hbr, Bool.false_eq_true, Bool.true_eq_false, if_true, if_false,
      ite_true, ite_false, if_neg, if_pos] at h <;>
    repeat' split at h
  all_goals first
    | (simp at h; done)
    | (simp only [Except.ok.injEq, Option.some.injEq] at h; subst h; simp_all)

/-- Witness for C7 on a concrete well-formed record. -/
theorem c7_nonneg_fields_witness :
    0 ≤ itemSupplierA.mrp ∧ 0 ≤ itemSupplierA.base_rate ∧
      0 ≤ itemSupplierA.paid_qty ∧ 0 ≤ itemSupplierA.free_qty :=
  c7_nonneg_fields rawSupplierA itemSupplierA (by decide) (by decide)

theorem primLt_iff (a b : Option ℚ) : primLt a b = true ↔ primVal a < primVal b := by
  cases a <;> cases b <;> simp [primLt, primVal]

theorem primVal_inj (a b : Option ℚ) (h : primVal a = primVal b) : a = b := by
  cases a <;> cases b <;> simp [primVal] at h <;> simp [h]

theorem offerKeyLe_iff (counts : String → ℕ) (x y : ProcessedSkuItem) :
    offerKeyLe counts x y = true ↔
      (primVal x.calculated_rate_per_qty < primVal y.calculated_rate_per_qty ∨
        (x.calculated_rate_per_qty = y.calculated_rate_per_qty ∧
          (x.paid_qty < y.paid_qty ∨ (x.paid_qty = y.paid_qty ∧
            counts y.supplier ≤ counts x.supplier)))) := by
  simp [offerKeyLe, primLt_iff, Bool.or_eq_true, Bool.and_eq_true, decide_eq_true_eq]

theorem offerKeyLe_total (counts : String → ℕ) (x y : ProcessedSkuItem) :
    offerKeyLe counts x y = true ∨ offerKeyLe counts y x = true := by
  rw [offerKeyLe_iff, offerKeyLe_iff]
  rcases lt_trichotomy (primVal x.calculated_rate_per_qty)
    (primVal y.calculated_rate_per_qty) with h | h | h
  · exact Or.inl (Or.inl h)
  · have hxy : x.calculated_rate_per_qty = y.calculated_rate_per_qty := primVal_inj _ _ h
    rcases lt_trichotomy x.paid_qty y.paid_qty with hp | hp | hp
    · exact Or.inl (Or.inr ⟨hxy, Or.inl hp⟩)
    · rcases Nat.le_total (counts y.supplier) (counts x.supplier) with hc | hc
      · exact Or.inl (Or.inr ⟨hxy, Or.inr ⟨hp, hc⟩⟩)
      · exact Or.inr (Or.inr ⟨hxy.symm, Or.inr ⟨hp.symm, hc⟩⟩)
    · exact Or.inr (Or.inr ⟨hxy.symm, Or.inl hp⟩)
  · exact Or.inr (Or.inl h)

theorem offerKeyLe_trans (counts : String → ℕ) (x y z : ProcessedSkuItem)
    (h1 : offerKeyLe counts x y = true) (h2 : offerKeyLe counts y z = true) :
    offerKeyLe counts x z = true := by
  rw [offerKeyLe_iff] at h1 h2 ⊢
  rcases h1 with hlt1 | ⟨heq1, hr1⟩
  · rcases h2 with hlt2 | ⟨heq2, hr2⟩
    · exact Or.inl (lt_trans hlt1 hlt2)
    · exact Or.inl (by rw [← congrArg primVal heq2]; exact hlt1)
  · rcases h2 with hlt2 | ⟨heq2, hr2⟩
    · exact Or.inl (by rw [congrArg primVal heq1]; exact hlt2)
    · refine Or.inr ⟨heq1.trans heq2, ?_⟩
      rcases hr1 with hp1 | ⟨hp1, hc1⟩
      · rcases hr2 with hp2 | ⟨hp2, hc2⟩
        · exact Or.inl (lt_trans hp1 hp2)
        · exact Or.inl (hp2 ▸ hp1)
      · rcases hr2 with hp2 | ⟨hp2, hc2⟩
        · exact Or.inl (hp1 ▸ hp2)
        · exact Or.inr ⟨hp1.trans hp2, le_trans hc2 hc1⟩

/-- C3: the candidate list used for a row's best-deal selection is sorted by
the lexicographic composite key (amount-based rate with `None → +infinity`,
then `paid_qty` ascending, then supplier catalog-breadth descending), where
the catalog-breadth count of a supplier is computed from the entire item list
passed to the engine, not from the row's candidate set — hence it is the
same in every row of a run. -/
theorem c3_tie_break_ordering (all_processed_items : List ProcessedSkuItem)
    (sku_name : String) :
    (rankedOffers all_processed_items sku_name).Pairwise (fun a b =>
      primVal a.calculated_rate_per_qty < primVal b.calculated_rate_per_qty ∨
        (a.calculated_rate_per_qty = b.calculated_rate_per_qty ∧
          (a.paid_qty < b.paid_qty ∨ (a.paid_qty = b.paid_qty ∧
            get_supplier_unique_sku_counts all_processed_items b.supplier ≤
              get_supplier_unique_sku_counts all_processed_items a.supplier)))) := by
  have hp := pairwise_sortLe
    (offerKeyLe (get_supplier_unique_sku_counts all_processed_items))
    (offerKeyLe_total _) (offerKeyLe_trans _)
    (all_processed_items.filter (fun i => decide (i.sku_name = sku_name)))
  refine List.Pairwise.imp ?_ hp
  intro a b hab
  exact (offerKeyLe_iff _ a b).mp hab

/-- C1 counterexample: the exact end-to-end scenario of the claim — Supplier
A (base_rate 100, discount 10%, qty 10+1, comparison price 81.82) against
Supplier B (base_rate 95, discount 0%, qty 10+0, comparison price 95.00),
amount absent for both — produces a row with NO winner ("-"), not Supplier
A: the engine never falls back to the discount-derived comparison price. -/
theorem c1_counterexample :
    preprocess_data [rawSupplierA, rawSupplierB] = .ok [itemSupplierA, itemSupplierB] ∧
    itemSupplierA.comparison_eff_rate = some ((8182 / 100 : ℚ) : WithTop ℚ) ∧
    itemSupplierB.comparison_eff_rate = some ((95 : ℚ) : WithTop ℚ) ∧
    (generate_comparison_table ["PRODUCT X"] [itemSupplierA, itemSupplierB]
        ["Supplier A", "Supplier B"]).map (fun r => r.best_deal) = ["-"] :=
  ⟨by decide, by decide, by decide, by decide⟩

/-- C1 (amended): the engine ranks a row's candidates by the ascending
composite key whose primary component is always the amount-based unit rate
(`calculated_rate_per_qty`), treating a missing value as `+infinity`, with no
fallback to the discount-derived comparison price; the first offer after
sorting is the winner if and only if its amount-based rate is present — in
particular, when the amount is absent for every candidate the row has no
winner. -/
theorem c1_best_deal_rule (items : List ProcessedSkuItem) (order : List String)
    (name : String) :
    ((∀ o ∈ items, o.sku_name = name → o.calculated_rate_per_qty = none) →
      (generateRow items order name).best_deal = "-") ∧
    (rankedOffers items name = [] → (generateRow items order name).best_deal = "-") ∧
    (∀ best rest, rankedOffers items name = best :: rest →
      (generateRow items order name).best_deal =
        (match best.calculated_rate_per_qty with
          | some _ => best.supplier
          | none => "-")) := by
  refine ⟨?_, ?_, ?_⟩
  · intro hall
    show bestDealText items name = "-"
    cases hr : rankedOffers items name with
    | nil => simp [bestDealText, hr]
    | cons best rest =>
      have hmem : best ∈ rankedOffers items name := by rw [hr]; simp
      rw [rankedOffers] at hmem
      have hfil := mem_sortLe _ _ _ hmem
      obtain ⟨hmem2, hname⟩ := List.mem_filter.mp hfil
      have hcalc : best.calculated_rate_per_qty = none :=
        hall best hmem2 (by simpa using hname)
      simp [bestDealText, hr, hcalc]
  · intro hr
    show bestDealText items name = "-"
    simp [bestDealText, hr]
  · intro best rest hr
    show bestDealText items name = _
    simp only [bestDealText, hr]

/-- Witness for C1 (amended): on the concrete Supplier A / Supplier B
scenario with amounts absent, the all-missing hypothesis holds and the row
has no winner. -/
theorem c1_best_deal_rule_witness :
    (generateRow [itemSupplierA, itemSupplierB] ["Supplier A", "Supplier B"]
      "PRODUCT X").best_deal = "-" :=
  (c1_best_deal_rule [itemSupplierA, itemSupplierB] ["Supplier A", "Supplier B"]
    "PRODUCT X").1 (by decide)

theorem dictFind_insert_isSome {κ : Type} [DecidableEq κ] (m : List (κ × String))
    (k k2 : κ) (v : String) (h : (dictFind m k2).isSome = true) :
    (dictFind (dictInsert m k v) k2).isSome = true := by
  by_cases hk : k2 = k
  · subst hk
    rw [dictFind_insert_self]
    rfl
  · rw [dictFind_insert_ne _ _ _ _ hk]
    exact h

theorem foldl_cells_isSome (s : String) (kvs : List (String × String))
    (m0 : List ((String × String) × String)) (c : String)
    (h : c ∈ kvs.map (fun kv => kv.1) ∨ (dictFind m0 (s, c)).isSome = true) :
    (dictFind (kvs.foldl (fun m kv => dictInsert m (s, kv.1) kv.2) m0) (s, c)).isSome =
      true := by
  induction kvs generalizing m0 with
  | nil =>
    rcases h with h | h
    · cases h
    · simpa using h
  | cons kv rest ih =>
    simp only [List.foldl_cons]
    apply ih
    rcases h with h | h
    · simp only [List.map_cons, List.mem_cons] at h
      rcases h with h1 | h1
      · subst h1
        right
        rw [dictFind_insert_self]
        rfl
      · left
        exact h1
    · right
      exact dictFind_insert_isSome _ _ _ _ h

theorem foldl_cells_pres (s s2 : String) (hne : s2 ≠ s) (kvs : List (String × String))
    (m0 : List ((String × String) × String)) (c : String) :
    dictFind (kvs.foldl (fun m kv => dictInsert m (s2, kv.1) kv.2) m0) (s, c) =
      dictFind m0 (s, c) := by
  induction kvs generalizing m0 with
  | nil => rfl
  | cons kv rest ih =>
    simp only [List.foldl_cons]
    rw [ih, dictFind_insert_ne]
    intro hc
    exact hne (congrArg Prod.fst hc).symm

theorem foldl_dash (s : String) (cols : List String)
    (m0 : List ((String × String) × String)) (c : String)
    (h : c ∈ cols ∨ dictFind m0 (s, c) = some "-") :
    dictFind (cols.foldl (fun m2 c2 => dictInsert m2 (s, c2) "-") m0) (s, c) =
      some "-" := by
  induction cols generalizing m0 with
  | nil =>
    rcases h with h | h
    · cases h
    · simpa using h
  | cons c2 rest ih =>
    simp only [List.foldl_cons]
    apply ih
    rcases h with h | h
    · rcases List.mem_cons.mp h with h1 | h1
      · subst h1
        right
        exact dictFind_insert_self _ _ _
      · left
        exact h1
    · by_cases hc : c = c2
      · subst hc
        right
        exact dictFind_insert_self _ _ _
      · right
        rw [dictFind_insert_ne]
        · exact h
        · intro he
          exact hc (congrArg Prod.snd he)

theorem foldl_dash_pres (s s2 : String) (hne : s2 ≠ s) (cols : List String)
    (m0 : List ((String × String) × String)) (c : String) :
    dictFind (cols.foldl (fun m2 c2 => dictInsert m2 (s2, c2) "-") m0) (s, c) =
      dictFind m0 (s, c) := by
  induction cols generalizing m0 with
  | nil => rfl
  | cons c2 rest ih =>
    simp only [List.foldl_cons]
    rw [ih, dictFind_insert_ne]
    intro hc
    exact hne (congrArg Prod.fst hc).symm

theorem addItemCells_pres (order : List String) (name : String)
    (rd : List ((String × String) × String)) (item : ProcessedSkuItem) (s c : String)
    (hs : ¬(item.sku_name = name ∧ item.supplier = s)) :
    dictFind (addItemCells order name rd item) (s, c) = dictFind rd (s, c) := by
  unfold addItemCells
  split
  · next hcond =>
    have hsup : item.supplier ≠ s := fun he => hs ⟨hcond.1, he⟩
    exact foldl_cells_pres s item.supplier hsup _ rd c
  · rfl

theorem addItemCells_isSome (order : List String) (name : String)
    (rd : List ((String × String) × String)) (item : ProcessedSkuItem) (s c : String)
    (h : (dictFind rd (s, c)).isSome = true) :
    (dictFind (addItemCells order name rd item) (s, c)).isSome = true := by
  unfold addItemCells
  split
  · by_cases hsup : item.supplier = s
    · subst hsup
      exact foldl_cells_isSome _ _ _ _ (Or.inr h)
    · rw [foldl_cells_pres s item.supplier hsup]
      exact h
  · exact h

/-- Invariant of the row dictionary: whenever a supplier's `"MRP"` cell is
present, its whole cell-group is present. -/
def mrpInv (rd : List ((String × String) × String)) : Prop :=
  ∀ s, (dictFind rd (s, "MRP")).isSome = true →
    ∀ c ∈ displayCols, (dictFind rd (s, c)).isSome = true

theorem addItemCells_inv (order : List String) (name : String)
    (rd : List ((String × String) × String)) (item : ProcessedSkuItem)
    (hI : mrpInv rd) : mrpInv (addItemCells order name rd item) := by
  intro s hs c hc
  by_cases hcond : item.sku_name = name ∧ item.supplier ∈ order
  · simp only [addItemCells, if_pos hcond] at hs ⊢
    by_cases hsup : item.supplier = s
    · subst hsup
      apply foldl_cells_isSome
      left
      have e : (supplierCells item).map (fun kv => kv.1) = displayCols := rfl
      rw [e]
      exact hc
    · rw [foldl_cells_pres s item.supplier hsup] at hs ⊢
      exact hI s hs c hc
  · simp only [addItemCells, if_neg hcond] at hs ⊢
    exact hI s hs c hc

theorem itemsFold_inv (order : List String) (name : String)
    (items : List ProcessedSkuItem) :
    ∀ (rd : List ((String × String) × String)), mrpInv rd →
      mrpInv (items.foldl (addItemCells order name) rd) := by
  induction items with
  | nil => intro rd hI; exact hI
  | cons item rest ih =>
    intro rd hI
    simp only [List.foldl_cons]
    exact ih _ (addItemCells_inv order name rd item hI)

theorem itemsFold_pres_nomatch (order : List String) (name : String)
    (items : List ProcessedSkuItem) (s : String)
    (hno : ∀ it ∈ items, ¬(it.sku_name = name ∧ it.supplier = s)) (c : String) :
    ∀ (rd : List ((String × String) × String)),
      dictFind (items.foldl (addItemCells order name) rd) (s, c) = dictFind rd (s, c) := by
  induction items with
  | nil => intro rd; rfl
  | cons item rest ih =>
    intro rd
    simp only [List.foldl_cons]
    rw [ih (fun it hit => hno it (List.mem_cons_of_mem item hit)),
      addItemCells_pres order name rd item s c (hno item (by simp))]

theorem fillStep_pres (s s2 : String) (hne : s2 ≠ s)
    (rd : List ((String × String) × String)) (c : String) :
    dictFind (fillStep rd s2) (s, c) = dictFind rd (s, c) := by
  unfold fillStep
  split
  · rfl
  · exact foldl_dash_pres s s2 hne displayCols rd c

theorem fill_pres (s c : String) :
    ∀ (order : List String) (rd : List ((String × String) × String)),
      (dictFind rd (s, "MRP")).isSome = true →
      dictFind (fillMissing order rd) (s, c) = dictFind rd (s, c) := by
  intro order
  induction order with
  | nil => intro rd _; rfl
  | cons s2 rest ih =>
    intro rd hMRP
    show dictFind (rest.foldl fillStep (fillStep rd s2)) (s, c) = _
    by_cases h2 : s2 = s
    · subst h2
      rw [show fillStep rd s2 = rd from by simp [fillStep, hMRP]]
      exact ih rd hMRP
    · calc dictFind (rest.foldl fillStep (fillStep rd s2)) (s, c)
          = dictFind (fillStep rd s2) (s, c) := by
            apply ih
            rw [fillStep_pres s s2 h2]
            exact hMRP
        _ = dictFind rd (s, c) := fillStep_pres s s2 h2 rd c

theorem fill_fills (s c : String) (hc : c ∈ displayCols) :
    ∀ (order : List String) (rd : List ((String × String) × String)),
      s ∈ order → dictFind rd (s, "MRP") = none →
      dictFind (fillMissing order rd) (s, c) = some "-" := by
  intro order
  induction order with
  | nil => intro rd hs _; cases hs
  | cons s2 rest ih =>
    intro rd hs hMRP
    show dictFind (rest.foldl fillStep (fillStep rd s2)) (s, c) = some "-"
    by_cases h2 : s2 = s
    · subst h2
      have e : fillStep rd s2 =
          displayCols.foldl (fun m2 c2 => dictInsert m2 (s2, c2) "-") rd := by
        simp [fillStep, hMRP]
      have hall : ∀ c2 ∈ displayCols, dictFind (fillStep rd s2) (s2, c2) = some "-" := by
        intro c2 hc2
        rw [e]
        exact foldl_dash s2 displayCols rd c2 (Or.inl hc2)
      have hMRP2 : (dictFind (fillStep rd s2) (s2, "MRP")).isSome = true := by
        rw [hall "MRP" (by simp [displayCols])]
        rfl
      rw [show List.foldl fillStep (fillStep rd s2) rest =
        fillMissing rest (fillStep rd s2) from rfl]
      rw [fill_pres s2 c rest (fillStep rd s2) hMRP2]
      exact hall c hc
    · have hsrest : s ∈ rest := by
        rcases List.mem_cons.mp hs with h | h
        · exact absurd h.symm h2
        · exact h
      have hp : dictFind (fillStep rd s2) (s, "MRP") = none := by
        rw [fillStep_pres s s2 h2]
        exact hMRP
      exact ih (fillStep rd s2) hsrest hp

theorem rd0_none (name s c : String) (hc : c ∈ displayCols) :
    dictFind [((("SKU Name" : String), ("" : String)), name)] (s, c) = none := by
  have hcne : c ≠ "" := by fin_cases hc <;> decide
  rw [dictFind_cons_ne]
  · rfl
  · intro he
    exact hcne (congrArg Prod.snd he).symm

/-- C9: for every requested canonical name and every supplier of the display
order, the emitted row contains a cell for each of the eight columns of that
supplier's group; when the supplier has no offer matching the name, every
such cell is the explicit placeholder `"-"`. -/
theorem c9_placeholder_cells (items : List ProcessedSkuItem) (order : List String)
    (name s : String) (hs : s ∈ order) (c : String) (hc : c ∈ displayCols) :
    ∃ v, dictFind (generateRow items order name).cells (s, c) = some v ∧
      ((∀ it ∈ items, ¬(it.sku_name = name ∧ it.supplier = s)) → v = "-") := by
  have hcells : (generateRow items order name).cells =
      fillMissing order
        (items.foldl (addItemCells order name) [(("SKU Name", ""), name)]) := rfl
  have hI0 : mrpInv [((("SKU Name" : String), ("" : String)), name)] := by
    intro s2 hs2 c2 hc2
    rw [rd0_none name s2 "MRP" (by simp [displayCols])] at hs2
    cases hs2
  have hI : mrpInv (items.foldl (addItemCells order name) [(("SKU Name", ""), name)]) :=
    itemsFold_inv order name items _ hI0
  cases hm : (dictFind (items.foldl (addItemCells order name)
      [(("SKU Name", ""), name)]) (s, "MRP")).isSome with
  | true =>
    have hsome : (dictFind (generateRow items order name).cells (s, c)).isSome = true := by
      rw [hcells, fill_pres s c order _ hm]
      exact hI s hm c hc
    obtain ⟨v, hv⟩ := Option.isSome_iff_exists.mp hsome
    refine ⟨v, hv, ?_⟩
    intro hno
    exfalso
    rw [itemsFold_pres_nomatch order name items s hno "MRP" _,
      rd0_none name s "MRP" (by simp [displayCols])] at hm
    cases hm
  | false =>
    have hnone : dictFind (items.foldl (addItemCells order name)
        [(("SKU Name", ""), name)]) (s, "MRP") = none := by
      cases he : dictFind (items.foldl (addItemCells order name)
          [(("SKU Name", ""), name)]) (s, "MRP") with
      | none => rfl
      | some v2 => rw [he] at hm; cases hm
    refine ⟨"-", ?_, fun _ => rfl⟩
    rw [hcells]
    exact fill_fills s c hc order _ hs hnone

/-- Witness for C9: a concrete row where Supplier B has no matching offer —
its Batch Number cell exists and is the placeholder. -/
theorem c9_placeholder_cells_witness :
    ∃ v, dictFind (generateRow [itemSupplierA] ["Supplier A", "Supplier B"]
        "PRODUCT X").cells ("Supplier B", "Batch Number") = some v ∧
      ((∀ it ∈ [itemSupplierA],
          ¬(it.sku_name = "PRODUCT X" ∧ it.supplier = "Supplier B")) → v = "-") :=
  c9_placeholder_cells [itemSupplierA] ["Supplier A", "Supplier B"] "PRODUCT X"
    "Supplier B" (by decide) "Batch Number" (by decide)

end QuotationComparison
